import Mathlib

/-!
# Verification of the `derive(Builder)` procedural macro

Shallow embedding of `src/builder/src/lib.rs` (the `Builder` derive macro) and
of the runtime behaviour of the code it generates, together with theorems
checking the natural-language specification against it.

The embedding has three layers:

* a syntactic model of the fragments of the Rust AST the macro inspects
  (`RustType`, `RExpr`, `RAttr`), mirroring the `syn` data the source
  destructures;
* the compile-time transformation itself: `match_vec_each` (attribute
  parsing), `fieldSpecial` (field classification) and `processField` /
  `processFields` (the per-field loop of `derive`), including the generated
  method set `methodsFor`;
* the runtime semantics of the generated builder: a builder state is one
  `Option` slot per field, setters/appenders are `callMethod`, and the
  generated `build` method is `build`.
-/

namespace Builder

/-! ## Rust AST fragments -/

/-- One generic argument inside `<...>`: either a type argument
(`GenericArgument::Type` in `syn`) or any other kind of argument
(lifetime, const, binding, ...). -/
inductive GenArg (τ : Type) where
  | tyArg (t : τ)
  | otherArg
deriving DecidableEq

/-- The arguments attached to one path segment (`syn::PathArguments`):
none, angle-bracketed `<...>`, or parenthesized `(...)`. -/
inductive PathArgs (τ : Type) where
  | noArgs
  | angle (args : List (GenArg τ))
  | paren
deriving DecidableEq

/-- One path segment (`syn::PathSegment`): an identifier plus arguments. -/
structure PathSeg (τ : Type) where
  ident : String
  args : PathArgs τ
deriving DecidableEq

/-- A Rust type as the macro observes it: a path type with an optional
`qself` and a non-empty segment list, or any non-path type (reference,
tuple, slice, ...), which the macro never matches. -/
inductive RustType where
  | path (qselfSome : Bool) (segs : List (PathSeg RustType))
  | nonPath

/-- A Rust expression as produced by `attr.parse_args::<Expr>()`: the macro
only distinguishes assignments, path expressions, string literals, other
literals and everything else. -/
inductive RExpr where
  | assign (lhs rhs : RExpr)
  | exprPath (segs : List String)
  | litStr (s : String)
  | litOther
  | otherExpr
deriving DecidableEq

/-- A field attribute (`syn::Attribute`): its path, and the result of
parsing its arguments as an expression. `parsedArgs = none` models the case
where `attr.parse_args::<Expr>()` itself fails (the `?` in the source then
propagates `syn`'s own error, not the fixed diagnostic). -/
structure RAttr where
  path : List String
  parsedArgs : Option RExpr

/-! ## Compile-time errors of the derive -/

/-- The fixed diagnostic text used at every `err(...)` site of
`match_vec_each`. -/
def builderEachMsg : String := "expected `builder(each = \"...\")`"

/-- A compile-time error emitted by the derive: either a diagnostic with a
fixed message text, or the error propagated from `attr.parse_args()?`
(whose message is produced by `syn`, not by this crate). -/
inductive DeriveError where
  | fixedDiag (msg : String)
  | synParseErr

/-! ## Attribute parsing: `match_vec_each` -/

/-- Embedding of `match_vec_each`: if `#[builder(each = "...")]` is
specified, return the name.  Follows the source line by line: empty list is
`Ok(None)`; more than one attribute, a path other than `builder`, a parsed
argument that is not an assignment, a left-hand side that is not the
identifier `each`, or a right-hand side that is not a string literal all
yield the fixed diagnostic; a failing `parse_args` propagates `syn`'s
error. -/
def match_vec_each (attrs : List RAttr) : Except DeriveError (Option String) :=
  match attrs with
  | [] => .ok none
  | attr :: rest =>
    if rest.length != 0 then .error (.fixedDiag builderEachMsg)
    else if attr.path ≠ ["builder"] then .error (.fixedDiag builderEachMsg)
    else
      match attr.parsedArgs with
      | none => .error .synParseErr
      | some (RExpr.assign lhs rhs) =>
        match lhs with
        | RExpr.exprPath p =>
          if p ≠ ["each"] then .error (.fixedDiag builderEachMsg)
          else
            match rhs with
            | RExpr.litStr s => .ok (some s)
            | _ => .error (.fixedDiag builderEachMsg)
        | _ => .error (.fixedDiag builderEachMsg)
      | some _ => .error (.fixedDiag builderEachMsg)

/-! ## Field classification -/

/-- The three field shapes of the source (`enum SpecialFieldTypes`). -/
inductive SpecialFieldTypes where
  | option
  | vec
  | unknown
deriving DecidableEq

/-- The structural match both the `is_option` and the `is_vec` checks
perform: the type must be a path type with no `qself`, its FIRST segment
must carry angle-bracketed arguments, and the FIRST of those arguments must
be a type argument.  Returns the segment's identifier and that inner type.
Note the source checks `segments.first()` and `args.first()` only: it does
not require a single-segment path nor a single-argument list. -/
def matchWrapperArg (ty : RustType) : Option (String × RustType) :=
  match ty with
  | RustType.path false (seg :: _) =>
    match seg.args with
    | PathArgs.angle (GenArg.tyArg inner :: _) => some (seg.ident, inner)
    | _ => none
  | _ => none

/-- Field classification, as in the body of `derive`: the `is_option` check
(ident `Option`), then the `is_vec` check (ident `Vec`), otherwise
`Unknown`.  Also returns the `field_tys` entry: the inner type for
`Option`/`Vec`, the original type for `Unknown`. -/
def fieldSpecial (ty : RustType) : SpecialFieldTypes × RustType :=
  match matchWrapperArg ty with
  | some (ident, inner) =>
    if ident = "Option" then (SpecialFieldTypes.option, inner)
    else if ident = "Vec" then (SpecialFieldTypes.vec, inner)
    else (SpecialFieldTypes.unknown, ty)
  | none => (SpecialFieldTypes.unknown, ty)

/-! ## The per-field derive loop -/

/-- A source field: name, declared type, attached attributes. -/
structure SrcField where
  name : String
  ty : RustType
  attrs : List RAttr

/-- The information `derive` keeps about one field: its name, its
classification, its `field_tys` entry, and the parsed `each` directive
(only ever `some` for `Vec` fields, since `match_vec_each` is only called
when `is_vec`). -/
structure FieldDesc where
  name : String
  special : SpecialFieldTypes
  innerTy : RustType
  each : Option String

/-- A field of the emitted builder struct: same name, possibly
`Option`-wrapped type, and its (cleared) attribute list. -/
structure BuilderField where
  name : String
  ty : RustType
  attrs : List RAttr

/-- The type `std::option::Option<ty>` produced by
`parse_quote! { std::option::Option<#ty> }`. -/
def optionWrap (ty : RustType) : RustType :=
  RustType.path false
    [⟨"std", PathArgs.noArgs⟩, ⟨"option", PathArgs.noArgs⟩,
     ⟨"Option", PathArgs.angle [GenArg.tyArg ty]⟩]

/-- One iteration of the field loop in `derive`: classify the field, call
`match_vec_each` only when the field is a `Vec` (returning its error as the
macro's output), clear the attributes, and `Option`-wrap the builder field
type unless the field is already an `Option`. -/
def processField (f : SrcField) : Except DeriveError (FieldDesc × BuilderField) :=
  let (sp, inner) := fieldSpecial f.ty
  let eachRes : Except DeriveError (Option String) :=
    if sp = SpecialFieldTypes.vec then match_vec_each f.attrs else .ok none
  match eachRes with
  | .error e => .error e
  | .ok eachOpt =>
    let bty := if sp = SpecialFieldTypes.option then f.ty else optionWrap f.ty
    .ok (⟨f.name, sp, inner, eachOpt⟩, ⟨f.name, bty, []⟩)

/-- The whole field loop: fields are processed in declaration order and the
first attribute error aborts the derive (`return e.to_compile_error()`), so
no builder output is generated. -/
def processFields : List SrcField → Except DeriveError (List (FieldDesc × BuilderField))
  | [] => .ok []
  | f :: fs =>
    match processField f with
    | .error e => .error e
    | .ok r =>
      match processFields fs with
      | .error e => .error e
      | .ok rs => .ok (r :: rs)

/-! ## Generated builder methods -/

/-- Whether a generated method is a per-element appender or a whole-value
setter. -/
inductive MethodKind where
  | appender
  | setter
deriving DecidableEq

/-- A generated builder method: its name and kind. -/
structure Method where
  mname : String
  kind : MethodKind
deriving DecidableEq

/-- The methods the `builder_methods` loop generates for one field: when an
`each` directive is present, an appender named after it, and additionally
the whole-value setter named after the field unless the directive name
equals the field name (`generate_all_at_once`); without a directive, the
whole-value setter only. -/
def methodsFor (d : FieldDesc) : List Method :=
  match d.each with
  | some e =>
    if e = d.name then [⟨e, MethodKind.appender⟩]
    else [⟨e, MethodKind.appender⟩, ⟨d.name, MethodKind.setter⟩]
  | none => [⟨d.name, MethodKind.setter⟩]

/-! ## Runtime semantics of the generated builder

The generated builder struct has one field per original field, each of type
`Option<...>`: `Option<T>` for a plain field `T`, the original `Option<T>`
for an optional field, and `Option<Vec<T>>` for a repeated field.  We model
values over an abstract scalar universe `V`; a slot holds either a scalar
or a collection. -/

/-- The content of a filled builder slot: a single value (plain and
optional fields) or a collection (repeated fields). -/
inductive Slot (V : Type) where
  | scalar (v : V)
  | coll (vs : List V)
deriving DecidableEq

/-- A builder state: the list of `Option` slots, in field declaration
order, parallel to the field descriptors. -/
abbrev BState (V : Type) := List (Option (Slot V))

/-- The generated `builder()` factory: every field starts as
`std::option::Option::None`. -/
def initBuilder (V : Type) (descs : List FieldDesc) : BState V :=
  descs.map (fun _ => none)

/-- The body of a generated appender (`each_method`): push onto the
accumulated collection, auto-initializing a fresh one-element collection
when the slot is still `None`.  A scalar slot cannot occur on a field that
has an appender (the Rust types forbid it); it is left unchanged. -/
def pushSlot {V : Type} (slot : Option (Slot V)) (v : V) : Option (Slot V) :=
  match slot with
  | some (Slot.coll l) => some (Slot.coll (l ++ [v]))
  | none => some (Slot.coll [v])
  | some (Slot.scalar w) => some (Slot.scalar w)

/-- Resolve a method name against the generated `impl` block: the first
field (in declaration order) offering a method of that name, together with
the method's kind.  In compilable Rust the generated method names are
distinct, so the first match is the only one. -/
def findMethod (descs : List FieldDesc) (n : String) : Option (Nat × MethodKind) :=
  match descs with
  | [] => none
  | d :: rest =>
    match (methodsFor d).find? (fun m => m.mname == n) with
    | some m => some (0, m.kind)
    | none => (findMethod rest n).map (fun p => (p.1 + 1, p.2))

/-- Calling a generated builder method named `n` with argument `arg`:
a whole-value setter stores `Some(arg)` (for an optional field the inner
value arrives already unwrapped, so storing the scalar models the `Some`
wrapping on assignment); an appender pushes its scalar argument.  A call to
a method that was never generated does not compile in Rust; it is modelled
as the identity. -/
def callMethod {V : Type} (descs : List FieldDesc) (st : BState V)
    (n : String) (arg : Slot V) : BState V :=
  match findMethod descs n with
  | none => st
  | some (i, MethodKind.setter) => st.set i (some arg)
  | some (i, MethodKind.appender) =>
    match arg with
    | Slot.scalar v => st.set i (pushSlot (st.getD i none) v)
    | Slot.coll _ => st

/-! ## The generated `build` method -/

/-- A field value of the constructed target struct: a plain value, an
optional value, or a collection. -/
inductive FieldVal (V : Type) where
  | scalar (v : V)
  | opt (v : Option V)
  | coll (vs : List V)
deriving DecidableEq

/-- The `uninit_checks` sequence of the generated `build`: the first field,
in declaration order, that is classified `Unknown` (plain) and whose slot
is still `None`; its name, if any.  These checks run before any slot is
extracted. -/
def firstUninit {V : Type} : List FieldDesc → BState V → Option String
  | [], _ => none
  | _ :: _, [] => none
  | d :: ds, s :: ss =>
    match d.special, s with
    | SpecialFieldTypes.unknown, none => some d.name
    | _, _ => firstUninit ds ss

/-- One `field_assigns` entry of the generated `build`: extract the slot by
`std::mem::replace(..., None)` and place it.  An optional field's slot goes
in as-is; a repeated field's missing slot becomes the empty collection
(`unwrap_or(Vec::new())`); a plain field's slot is `unwrap`ped — `none`
here marks the cases that cannot be reached in the typed Rust code (a
mis-shaped slot, or a plain `None` slot after the checks passed). -/
def extractField {V : Type} :
    SpecialFieldTypes → Option (Slot V) → Option (FieldVal V)
  | SpecialFieldTypes.option, none => some (FieldVal.opt none)
  | SpecialFieldTypes.option, some (Slot.scalar v) => some (FieldVal.opt (some v))
  | SpecialFieldTypes.option, some (Slot.coll _) => none
  | SpecialFieldTypes.vec, none => some (FieldVal.coll [])
  | SpecialFieldTypes.vec, some (Slot.coll vs) => some (FieldVal.coll vs)
  | SpecialFieldTypes.vec, some (Slot.scalar _) => none
  | SpecialFieldTypes.unknown, some (Slot.scalar v) => some (FieldVal.scalar v)
  | SpecialFieldTypes.unknown, some (Slot.coll _) => none
  | SpecialFieldTypes.unknown, none => none

/-- All `field_assigns` in declaration order. -/
def extractAll {V : Type} : List FieldDesc → BState V → Option (List (FieldVal V))
  | [], [] => some []
  | d :: ds, s :: ss =>
    match extractField d.special s, extractAll ds ss with
    | some fv, some rest => some (fv :: rest)
    | _, _ => none
  | _, _ => none

/-- The outcome of the generated `build`: the constructed target's field
values, the `Err` message, or `stuck` for the slot shapes the Rust type
system rules out. -/
inductive BuildResult (V : Type) where
  | ok (target : List (FieldVal V))
  | err (msg : String)
  | stuck
deriving DecidableEq

/-- The generated `build` method: run every `uninit_check` first (checks
only read the slots); on the first missing plain field return
`Err("Field <name> not initialized")` with the builder untouched; otherwise
build the target struct, each extraction replacing its slot with `None`. -/
def build {V : Type} (descs : List FieldDesc) (st : BState V) :
    BuildResult V × BState V :=
  match firstUninit descs st with
  | some name => (BuildResult.err ("Field " ++ name ++ " not initialized"), st)
  | none =>
    match extractAll descs st with
    | some tgt => (BuildResult.ok tgt, st.map (fun _ => none))
    | none => (BuildResult.stuck, st.map (fun _ => none))

/-! ## The concrete `Command` struct of `src/main.rs` -/

/-- The type `String`. -/
def strTy : RustType := RustType.path false [⟨"String", PathArgs.noArgs⟩]

/-- The type `Vec<String>`. -/
def vecStrTy : RustType :=
  RustType.path false [⟨"Vec", PathArgs.angle [GenArg.tyArg strTy]⟩]

/-- The type `Option<String>`. -/
def optStrTy : RustType :=
  RustType.path false [⟨"Option", PathArgs.angle [GenArg.tyArg strTy]⟩]

/-- The attribute `#[builder(each = "arg")]`. -/
def eachArgAttr : RAttr :=
  ⟨["builder"], some (RExpr.assign (RExpr.exprPath ["each"]) (RExpr.litStr "arg"))⟩

/-- The fields of `struct Command` as declared in `src/main.rs`. -/
def commandFields : List SrcField :=
  [⟨"executable", strTy, []⟩,
   ⟨"args", vecStrTy, [eachArgAttr]⟩,
   ⟨"env", vecStrTy, []⟩,
   ⟨"current_dir", optStrTy, []⟩]

/-- The field descriptors the derive computes for `Command`. -/
def commandDescs : List FieldDesc :=
  match processFields commandFields with
  | Except.ok l => l.map Prod.fst
  | Except.error _ => []

/-- Builder state after `Command::builder().arg("ls").arg("-l")
.env(vec!["PATH=/bin"])` (no `executable` yet). -/
def cmdStateNoExe : BState String :=
  callMethod commandDescs
    (callMethod commandDescs
      (callMethod commandDescs (initBuilder String commandDescs)
        "arg" (Slot.scalar "ls"))
      "arg" (Slot.scalar "-l"))
    "env" (Slot.coll ["PATH=/bin"])

/-- The same state after additionally calling `executable("ls".into())`. -/
def cmdStateFull : BState String :=
  callMethod commandDescs cmdStateNoExe "executable" (Slot.scalar "ls")

/-! ## Spec-side classification (for the refinement claim C3) -/

/-- Classification following the specification's words, for comparison with
`fieldSpecial`: Optional/Repeated only for a SINGLE-segment path whose sole
generic argument list has EXACTLY ONE type argument and whose leading
identifier equals the wrapper name; everything else is Plain. -/
def specFieldClass (ty : RustType) : SpecialFieldTypes :=
  match ty with
  | RustType.path false [⟨ident, PathArgs.angle [GenArg.tyArg _]⟩] =>
    if ident = "Option" then SpecialFieldTypes.option
    else if ident = "Vec" then SpecialFieldTypes.vec
    else SpecialFieldTypes.unknown
  | _ => SpecialFieldTypes.unknown

/-- A single-segment path `Option<String, String>` with two type
arguments: the specification's classification rule calls it Plain, the
code's first-argument match calls it Optional. -/
def twoArgOptionTy : RustType :=
  RustType.path false
    [⟨"Option", PathArgs.angle [GenArg.tyArg strTy, GenArg.tyArg strTy]⟩]

/-- Which slot contents the Rust type system allows for each field shape:
a plain or optional field's slot holds a single value, a repeated field's
slot holds a collection; the empty slot fits every shape. -/
def slotOK {V : Type} : SpecialFieldTypes → Option (Slot V) → Prop
  | _, none => True
  | SpecialFieldTypes.vec, some (Slot.coll _) => True
  | SpecialFieldTypes.vec, some (Slot.scalar _) => False
  | SpecialFieldTypes.option, some (Slot.scalar _) => True
  | SpecialFieldTypes.option, some (Slot.coll _) => False
  | SpecialFieldTypes.unknown, some (Slot.scalar _) => True
  | SpecialFieldTypes.unknown, some (Slot.coll _) => False

/-- What `build` places in the target for an optional or repeated field
(claim C6): an optional field's slot value goes in as-is (absent stays
absent), a repeated field's absent slot becomes the empty collection and a
filled one is placed unchanged. -/
def extractSpec {V : Type} (p : FieldDesc × Option (Slot V)) (fv : FieldVal V) : Prop :=
  (p.1.special = SpecialFieldTypes.option →
    (p.2 = none → fv = FieldVal.opt none)
    ∧ ∀ v, p.2 = some (Slot.scalar v) → fv = FieldVal.opt (some v))
  ∧ (p.1.special = SpecialFieldTypes.vec →
    (p.2 = none → fv = FieldVal.coll [])
    ∧ ∀ vs, p.2 = some (Slot.coll vs) → fv = FieldVal.coll vs)

/-! ## Deviant attribute shapes (for claim C4) -/

/-- The single accepted argument shape of the directive: the assignment
`each = "<string>"` with the literal identifier `each` on the left and a
string literal on the right. -/
def acceptedEachExpr (e : RExpr) : Prop :=
  ∃ s, e = RExpr.assign (RExpr.exprPath ["each"]) (RExpr.litStr s)

/-- The deviations from `builder(each = "...")` the claim enumerates: more
than one attribute entry; a wrong attribute name; or arguments that parse
to an expression other than the accepted assignment (non-assignment, a
left side other than the identifier `each`, or a right side that is not a
string literal). -/
def deviantAttrs (attrs : List RAttr) : Prop :=
  2 ≤ attrs.length ∨
  ∃ a, attrs = [a] ∧
    (a.path ≠ ["builder"] ∨
     (a.path = ["builder"] ∧ ∃ e, a.parsedArgs = some e ∧ ¬ acceptedEachExpr e))

/-- The malformed attribute `#[builder(eac = "x")]` from the spec's
example. -/
def eacAttr : RAttr :=
  ⟨["builder"], some (RExpr.assign (RExpr.exprPath ["eac"]) (RExpr.litStr "x"))⟩

/-- A `Vec<String>` field carrying the malformed attribute. -/
def fieldEac : SrcField := ⟨"args", vecStrTy, [eacAttr]⟩

/-! ## Theorems -/

/-- Sanity: the derive classifies `Command`'s fields as plain, repeated
(with directive `arg`), repeated (no directive), optional. -/
theorem commandDescs_eq :
    commandDescs =
      [⟨"executable", SpecialFieldTypes.unknown, strTy, none⟩,
       ⟨"args", SpecialFieldTypes.vec, strTy, some "arg"⟩,
       ⟨"env", SpecialFieldTypes.vec, strTy, none⟩,
       ⟨"current_dir", SpecialFieldTypes.option, strTy, none⟩] := by
  rfl

/-- C1: on `Command`, after `builder().arg("ls").arg("-l")
.env(vec!["PATH=/bin"]).executable("ls".into())`, `build()` returns `Ok` of
a `Command` with executable `"ls"`, args `["ls","-l"]`, env `["PATH=/bin"]`
and `current_dir` `None` (every slot cleared afterwards); the same sequence
without the `executable(...)` call makes `build()` return the error
`Field executable not initialized`. -/
theorem command_end_to_end :
    build commandDescs cmdStateFull =
      (BuildResult.ok
        [FieldVal.scalar "ls", FieldVal.coll ["ls", "-l"],
         FieldVal.coll ["PATH=/bin"], FieldVal.opt none],
       [none, none, none, none])
    ∧ (build commandDescs cmdStateNoExe).1 =
        BuildResult.err "Field executable not initialized" := by
  exact ⟨rfl, rfl⟩

/-- C9: whenever the generated `build` returns an error, the builder state
is completely unchanged — all missing-field checks run before any slot
extraction, so a failing `build` extracts nothing. -/
theorem build_err_leaves_state_unchanged {V : Type} (descs : List FieldDesc)
    (st : BState V) (m : String)
    (h : (build descs st).1 = BuildResult.err m) : (build descs st).2 = st := by
  unfold build at h ⊢
  cases hf : firstUninit descs st with
  | some name => simp [hf]
  | none =>
    rw [hf] at h
    cases he : extractAll descs st <;> rw [he] at h <;> simp at h

/-- Witness for C9 at a concrete input: `build` on the `Command` builder
missing its `executable` fails, and the state is returned intact. -/
theorem build_err_leaves_state_unchanged_witness :
    (build commandDescs cmdStateNoExe).2 = cmdStateNoExe :=
  build_err_leaves_state_unchanged commandDescs cmdStateNoExe
    "Field executable not initialized" rfl

/-- C5: for a repeated field, the generated methods are exactly: only the
appender (named after the directive) when the directive name equals the
field name; the appender plus the whole-collection setter (named after the
field) when they differ; and only the whole-collection setter when no
directive is given. -/
theorem repeated_field_methods (d : FieldDesc)
    (_hvec : d.special = SpecialFieldTypes.vec) :
    (∀ e, d.each = some e →
      (e = d.name → methodsFor d = [⟨e, MethodKind.appender⟩]) ∧
      (e ≠ d.name →
        methodsFor d = [⟨e, MethodKind.appender⟩, ⟨d.name, MethodKind.setter⟩]))
    ∧ (d.each = none → methodsFor d = [⟨d.name, MethodKind.setter⟩]) := by
  refine ⟨fun e he => ⟨fun heq => ?_, fun hne => ?_⟩, fun hn => ?_⟩
  · simp [methodsFor, he, heq]
  · simp [methodsFor, he, hne]
  · simp [methodsFor, hn]

/-- Witness for C5 at the `args` field of `Command` (directive `arg`
differs from field name `args`): both methods are generated. -/
theorem repeated_field_methods_witness :
    methodsFor ⟨"args", SpecialFieldTypes.vec, strTy, some "arg"⟩ =
      [⟨"arg", MethodKind.appender⟩, ⟨"args", MethodKind.setter⟩] :=
  ((repeated_field_methods _ rfl).1 "arg" rfl).2 (by decide)

/-- Helper: the structural match of the classification succeeds exactly on
a qself-free path type whose first segment carries angle-bracketed
arguments whose first argument is a type argument. -/
theorem matchWrapperArg_eq_some (ty : RustType) (id : String) (inner : RustType) :
    matchWrapperArg ty = some (id, inner) ↔
      ∃ args rest,
        ty = RustType.path false (⟨id, PathArgs.angle (GenArg.tyArg inner :: args)⟩ :: rest) := by
  cases ty with
  | nonPath => simp [matchWrapperArg]
  | path q segs =>
    cases q with
    | true => simp [matchWrapperArg]
    | false =>
      cases segs with
      | nil => simp [matchWrapperArg]
      | cons seg rest =>
        obtain ⟨sid, sargs⟩ := seg
        cases sargs with
        | noArgs => simp [matchWrapperArg]
        | paren => simp [matchWrapperArg]
        | angle args =>
          cases args with
          | nil => simp [matchWrapperArg]
          | cons a as =>
            cases a with
            | otherArg => simp [matchWrapperArg]
            | tyArg t =>
              simp only [matchWrapperArg, Option.some.injEq, Prod.mk.injEq]
              constructor
              · rintro ⟨rfl, rfl⟩
                exact ⟨as, rest, rfl⟩
              · rintro ⟨args2, rest2, heq⟩
                injection heq with h1 h2
                injection h2 with h3 h4
                injection h3 with h5 h6
                injection h6 with h7
                injection h7 with h8 h9
                injection h8 with h10
                exact ⟨h5, h10⟩

/-- Helper for C4: every deviant attribute shape makes `match_vec_each`
return the fixed diagnostic. -/
theorem match_vec_each_deviant (attrs : List RAttr) (hdev : deviantAttrs attrs) :
    match_vec_each attrs = Except.error (DeriveError.fixedDiag builderEachMsg) := by
  rcases hdev with hlen | ⟨a, rfl, hcase⟩
  · cases attrs with
    | nil => simp at hlen
    | cons a rest =>
      cases rest with
      | nil => simp at hlen
      | cons b t => simp [match_vec_each]
  · obtain ⟨p, pargs⟩ := a
    rcases hcase with hpath | ⟨hpath, e, hargs, hnacc⟩
    · simp only at hpath
      simp [match_vec_each, hpath]
    · simp only at hpath hargs
      subst hpath
      subst hargs
      cases e with
      | assign lhs rhs =>
        cases lhs with
        | exprPath segs =>
          by_cases hsegs : segs = ["each"]
          · subst hsegs
            cases rhs with
            | litStr s => exact absurd ⟨s, rfl⟩ hnacc
            | assign l r => simp [match_vec_each]
            | exprPath q => simp [match_vec_each]
            | litOther => simp [match_vec_each]
            | otherExpr => simp [match_vec_each]
          · simp [match_vec_each, hsegs]
        | assign l r => simp [match_vec_each]
        | litStr s => simp [match_vec_each]
        | litOther => simp [match_vec_each]
        | otherExpr => simp [match_vec_each]
      | exprPath q => simp [match_vec_each]
      | litStr s => simp [match_vec_each]
      | litOther => simp [match_vec_each]
      | otherExpr => simp [match_vec_each]

/-- C4: attribute metadata on a repeated field deviating from the single
accepted shape `builder(each = "...")` — more than one attribute, a wrong
attribute name, a non-assignment argument expression, a left side other
than `each`, or a right side that is not a string literal — makes
`match_vec_each` produce the diagnostic with the exact message
`expected \x60builder(each = "...")\x60`, and the derive aborts with that
diagnostic, generating no output. -/
theorem malformed_each_aborts_derive :
    (∀ attrs, deviantAttrs attrs →
      match_vec_each attrs = Except.error (DeriveError.fixedDiag builderEachMsg))
    ∧ ∀ pre f post,
        (∀ g ∈ pre, ∃ r, processField g = Except.ok r) →
        (fieldSpecial f.ty).1 = SpecialFieldTypes.vec →
        deviantAttrs f.attrs →
        processFields (pre ++ f :: post) =
          Except.error (DeriveError.fixedDiag builderEachMsg) := by
  refine ⟨match_vec_each_deviant, ?_⟩
  intro pre f post hpre hvec hdev
  have hf : processField f = Except.error (DeriveError.fixedDiag builderEachMsg) := by
    rcases hsp : fieldSpecial f.ty with ⟨sp, inner⟩
    rw [hsp] at hvec
    simp only at hvec
    subst hvec
    unfold processField
    rw [hsp]
    simp [match_vec_each_deviant f.attrs hdev]
  induction pre with
  | nil => simp [processFields, hf]
  | cons g gs ih =>
    obtain ⟨r, hr⟩ := hpre g (List.mem_cons_self g gs)
    have ih2 := ih (fun x hx => hpre x (List.mem_cons_of_mem g hx))
    simp [processFields, hr, ih2]

/-- Witness for C4 at the spec's own example `#[builder(eac = "x")]` on a
`Vec<String>` field: the fixed diagnostic is produced and the derive emits
an error instead of output. -/
theorem malformed_each_aborts_derive_witness :
    match_vec_each [eacAttr] = Except.error (DeriveError.fixedDiag builderEachMsg)
    ∧ processFields [fieldEac] = Except.error (DeriveError.fixedDiag builderEachMsg) := by
  have hdev : deviantAttrs [eacAttr] := by
    refine Or.inr ⟨eacAttr, rfl, Or.inr ⟨rfl,
      RExpr.assign (RExpr.exprPath ["eac"]) (RExpr.litStr "x"), rfl, ?_⟩⟩
    rintro ⟨s, hs⟩
    injection hs with h1 h2
    injection h1 with h3
    exact absurd h3 (by decide)
  exact ⟨malformed_each_aborts_derive.1 [eacAttr] hdev,
    malformed_each_aborts_derive.2 [] fieldEac [] (by simp) rfl hdev⟩

/-- C10: an attribute on a field that is not classified repeated is never
parsed and never produces a diagnostic — `processField` succeeds whatever
the attributes are, records no directive, and the emitted builder field
carries an empty attribute list. -/
theorem nonvec_field_attrs_ignored (f : SrcField)
    (h : (fieldSpecial f.ty).1 ≠ SpecialFieldTypes.vec) :
    processField f = Except.ok
      (⟨f.name, (fieldSpecial f.ty).1, (fieldSpecial f.ty).2, none⟩,
       ⟨f.name,
        if (fieldSpecial f.ty).1 = SpecialFieldTypes.option then f.ty
        else optionWrap f.ty, []⟩) := by
  rcases hsp : fieldSpecial f.ty with ⟨sp, inner⟩
  rw [hsp] at h
  simp only at h
  simp [processField, hsp, h]

/-- Witness for C10: an `Option<String>` field carrying the malformed
attribute `#[builder(eac = "x")]` is processed without any diagnostic and
its builder field has no attributes. -/
theorem nonvec_field_attrs_ignored_witness :
    processField ⟨"current_dir", optStrTy, [eacAttr]⟩ = Except.ok
      (⟨"current_dir", SpecialFieldTypes.option, strTy, none⟩,
       ⟨"current_dir", optStrTy, []⟩) := by
  exact nonvec_field_attrs_ignored ⟨"current_dir", optStrTy, [eacAttr]⟩ (by decide)

/-- C3 counterexample: the code classifies `Option<String, String>` (one
segment, TWO type arguments) as Optional, while the claim's rule (exactly
one type argument) classifies it Plain. -/
theorem classification_claim_counterexample :
    (fieldSpecial twoArgOptionTy).1 = SpecialFieldTypes.option
    ∧ specFieldClass twoArgOptionTy = SpecialFieldTypes.unknown :=
  ⟨rfl, rfl⟩

/-- C3 (amended): a field is classified Optional (resp. Repeated) exactly
when its type is a qself-free path type whose FIRST segment has an
angle-bracketed argument list whose FIRST argument is a type argument and
whose identifier is `Option` (resp. `Vec`); every other type is Plain.
The code does not require the path to be single-segment nor the argument
list to have exactly one argument. -/
theorem classification_first_segment (ty : RustType) :
    ((fieldSpecial ty).1 = SpecialFieldTypes.option ↔
      ∃ inner args rest,
        ty = RustType.path false
          (⟨"Option", PathArgs.angle (GenArg.tyArg inner :: args)⟩ :: rest))
    ∧ ((fieldSpecial ty).1 = SpecialFieldTypes.vec ↔
      ∃ inner args rest,
        ty = RustType.path false
          (⟨"Vec", PathArgs.angle (GenArg.tyArg inner :: args)⟩ :: rest)) := by
  constructor
  · constructor
    · intro h
      unfold fieldSpecial at h
      cases hm : matchWrapperArg ty with
      | none => rw [hm] at h; simp at h
      | some p =>
        obtain ⟨id, inner⟩ := p
        rw [hm] at h
        by_cases hid : id = "Option"
        · subst hid
          obtain ⟨args, rest, rfl⟩ := (matchWrapperArg_eq_some _ _ _).mp hm
          exact ⟨inner, args, rest, rfl⟩
        · by_cases hid2 : id = "Vec" <;> simp [hid, hid2] at h
    · rintro ⟨inner, args, rest, rfl⟩
      rfl
  · constructor
    · intro h
      unfold fieldSpecial at h
      cases hm : matchWrapperArg ty with
      | none => rw [hm] at h; simp at h
      | some p =>
        obtain ⟨id, inner⟩ := p
        rw [hm] at h
        by_cases hid : id = "Option"
        · simp [hid] at h
        · by_cases hid2 : id = "Vec"
          · subst hid2
            obtain ⟨args, rest, rfl⟩ := (matchWrapperArg_eq_some _ _ _).mp hm
            exact ⟨inner, args, rest, rfl⟩
          · simp [hid, hid2] at h
    · rintro ⟨inner, args, rest, rfl⟩
      rfl

/-- Helper for C2/C8: the `uninit_checks` report the plain field `d` when
every field before it is either non-plain or filled, `d` is plain and its
slot is empty. -/
theorem firstUninit_append {V : Type} {pre : List FieldDesc} {spre : BState V}
    (hfirst : List.Forall₂
      (fun d0 s0 => d0.special = SpecialFieldTypes.unknown → s0 ≠ none) pre spre)
    (d : FieldDesc) (post : List FieldDesc) (s : Option (Slot V)) (spost : BState V)
    (hplain : d.special = SpecialFieldTypes.unknown) (hnone : s = none) :
    firstUninit (pre ++ d :: post) (spre ++ s :: spost) = some d.name := by
  induction hfirst with
  | nil =>
    subst hnone
    simp [firstUninit, hplain]
  | @cons a b l1 l2 hab htail ih =>
    cases hb : b with
    | none =>
      have hne : a.special ≠ SpecialFieldTypes.unknown := by
        intro hu
        exact (hab hu) hb
      cases ha : a.special with
      | unknown => exact absurd ha hne
      | option => simp [firstUninit, ha, ih]
      | vec => simp [firstUninit, ha, ih]
    | some sv =>
      cases ha : a.special with
      | unknown => simp [firstUninit, ha, ih]
      | option => simp [firstUninit, ha, ih]
      | vec => simp [firstUninit, ha, ih]

/-- C2: when the first plain field (in declaration order) whose slot is
still empty is `d`, `build` fails with exactly the message
`Field <name> not initialized` for `d` — a single field, no aggregation —
and the builder state is untouched. -/
theorem build_reports_first_missing_plain {V : Type}
    (pre post : List FieldDesc) (spre spost : BState V)
    (d : FieldDesc) (s : Option (Slot V))
    (hplain : d.special = SpecialFieldTypes.unknown)
    (hnone : s = none)
    (hfirst : List.Forall₂
      (fun d0 s0 => d0.special = SpecialFieldTypes.unknown → s0 ≠ none) pre spre) :
    build (pre ++ d :: post) (spre ++ s :: spost) =
      (BuildResult.err ("Field " ++ d.name ++ " not initialized"),
       spre ++ s :: spost) := by
  unfold build
  rw [firstUninit_append hfirst d post s spost hplain hnone]

/-- Witness for C2: a struct with two plain fields `a`, `b`, both unset —
`build` reports `a`, the first in declaration order, and only `a`. -/
theorem build_reports_first_missing_plain_witness :
    build [⟨"a", SpecialFieldTypes.unknown, strTy, none⟩,
           ⟨"b", SpecialFieldTypes.unknown, strTy, none⟩]
      ([none, none] : BState String) =
      (BuildResult.err "Field a not initialized", [none, none]) :=
  build_reports_first_missing_plain []
    [⟨"b", SpecialFieldTypes.unknown, strTy, none⟩] [] [none]
    ⟨"a", SpecialFieldTypes.unknown, strTy, none⟩ none rfl rfl List.Forall₂.nil

/-- Helper: a successful extraction implies the state and descriptor lists
have equal length. -/
theorem extractAll_lengths {V : Type} {descs : List FieldDesc} {st : BState V}
    {tgt : List (FieldVal V)} (h : extractAll descs st = some tgt) :
    st.length = descs.length := by
  induction descs generalizing st tgt with
  | nil =>
    cases st with
    | nil => rfl
    | cons s ss => simp [extractAll] at h
  | cons dd ds ih =>
    cases st with
    | nil => simp [extractAll] at h
    | cons s ss =>
      cases hf : extractField dd.special s with
      | none => simp [extractAll, hf] at h
      | some fv =>
        cases ha : extractAll ds ss with
        | none => simp [extractAll, hf, ha] at h
        | some rest => simp [ih ha]

/-- Helper: over a prefix with no plain field, emptied slots satisfy the
"plain implies filled" relation vacuously. -/
theorem forall2_noplain_replicate {V : Type} :
    ∀ (pre : List FieldDesc),
      (∀ g ∈ pre, g.special ≠ SpecialFieldTypes.unknown) →
      List.Forall₂
        (fun d0 (s0 : Option (Slot V)) =>
          d0.special = SpecialFieldTypes.unknown → s0 ≠ none)
        pre (List.replicate pre.length none)
  | [], _ => List.Forall₂.nil
  | g :: gs, h =>
    List.Forall₂.cons
      (fun hu => absurd hu (h g (List.mem_cons_self g gs)))
      (forall2_noplain_replicate gs (fun x hx => h x (List.mem_cons_of_mem g hx)))

/-- C8: every extraction of a successful `build` empties its slot
(`std::mem::replace(..., None)`), so a second `build` on the same builder
hits the `not initialized` error at the first plain field in declaration
order instead of silently reusing a moved value. -/
theorem second_build_fails {V : Type}
    (descs : List FieldDesc) (st : BState V)
    (tgt : List (FieldVal V)) (st2 : BState V)
    (hok : build descs st = (BuildResult.ok tgt, st2))
    (pre post : List FieldDesc) (d : FieldDesc)
    (hsplit : descs = pre ++ d :: post)
    (hplain : d.special = SpecialFieldTypes.unknown)
    (hpre : ∀ g ∈ pre, g.special ≠ SpecialFieldTypes.unknown) :
    build descs st2 =
      (BuildResult.err ("Field " ++ d.name ++ " not initialized"), st2) := by
  subst hsplit
  have hparts : st2 = st.map (fun _ => none)
      ∧ st.length = (pre ++ d :: post).length := by
    unfold build at hok
    cases hf : firstUninit (pre ++ d :: post) st with
    | some name => rw [hf] at hok; simp at hok
    | none =>
      rw [hf] at hok
      cases he : extractAll (pre ++ d :: post) st with
      | none => rw [he] at hok; simp at hok
      | some t =>
        rw [he] at hok
        simp only [Prod.mk.injEq] at hok
        exact ⟨hok.2.symm, extractAll_lengths he⟩
  obtain ⟨hst2, hlen⟩ := hparts
  have hrep : st2 = List.replicate pre.length (none : Option (Slot V)) ++
      none :: List.replicate post.length none := by
    rw [hst2, List.map_const', hlen]
    rw [List.length_append, List.length_cons, List.replicate_add,
      List.replicate_succ]
  rw [hrep]
  unfold build
  rw [firstUninit_append (forall2_noplain_replicate pre hpre) d post none
    (List.replicate post.length none) hplain rfl]

/-- Witness for C8 on `Command`: the successful end-to-end build empties
every slot, and a second `build` fails for `executable`. -/
theorem second_build_fails_witness :
    build commandDescs ([none, none, none, none] : BState String) =
      (BuildResult.err "Field executable not initialized",
       [none, none, none, none]) :=
  second_build_fails commandDescs cmdStateFull
    [FieldVal.scalar "ls", FieldVal.coll ["ls", "-l"],
     FieldVal.coll ["PATH=/bin"], FieldVal.opt none]
    [none, none, none, none] rfl
    [] [⟨"args", SpecialFieldTypes.vec, strTy, some "arg"⟩,
        ⟨"env", SpecialFieldTypes.vec, strTy, none⟩,
        ⟨"current_dir", SpecialFieldTypes.option, strTy, none⟩]
    ⟨"executable", SpecialFieldTypes.unknown, strTy, none⟩
    commandDescs_eq rfl (by simp)

/-- Helper for C6: the `uninit_checks` all pass when every plain field's
slot is filled. -/
theorem firstUninit_none_of_filled {V : Type} {descs : List FieldDesc}
    {st : BState V}
    (h : List.Forall₂
      (fun d s => d.special = SpecialFieldTypes.unknown → s ≠ none) descs st) :
    firstUninit descs st = none := by
  induction h with
  | nil => rfl
  | @cons a b l1 l2 hab htail ih =>
    cases hb : b with
    | none =>
      have hne : a.special ≠ SpecialFieldTypes.unknown := fun hu => (hab hu) hb
      cases ha : a.special with
      | unknown => exact absurd ha hne
      | option => simp [firstUninit, ha, ih]
      | vec => simp [firstUninit, ha, ih]
    | some sv =>
      cases ha : a.special with
      | unknown => simp [firstUninit, ha, ih]
      | option => simp [firstUninit, ha, ih]
      | vec => simp [firstUninit, ha, ih]

/-- Helper for C6: under well-shaped slots with all plain fields filled,
every `field_assigns` extraction succeeds, pointwise by `extractField`. -/
theorem extractAll_of_filled {V : Type} {descs : List FieldDesc} {st : BState V}
    (h : List.Forall₂
      (fun d s => slotOK d.special s ∧
        (d.special = SpecialFieldTypes.unknown → s ≠ none)) descs st) :
    ∃ tgt, extractAll descs st = some tgt
      ∧ List.Forall₂
          (fun (p : FieldDesc × Option (Slot V)) fv =>
            extractField p.1.special p.2 = some fv)
          (descs.zip st) tgt := by
  induction h with
  | nil => exact ⟨[], rfl, List.Forall₂.nil⟩
  | @cons a b l1 l2 hab htail ih =>
    obtain ⟨tgt, htgt, hprop⟩ := ih
    obtain ⟨hok, hfill⟩ := hab
    have hfv : ∃ fv, extractField a.special b = some fv := by
      cases ha : a.special with
      | option =>
        rw [ha] at hok
        cases b with
        | none => exact ⟨_, rfl⟩
        | some sl =>
          cases sl with
          | scalar v => exact ⟨_, rfl⟩
          | coll vs => simp [slotOK] at hok
      | vec =>
        rw [ha] at hok
        cases b with
        | none => exact ⟨_, rfl⟩
        | some sl =>
          cases sl with
          | coll vs => exact ⟨_, rfl⟩
          | scalar v => simp [slotOK] at hok
      | unknown =>
        rw [ha] at hok
        cases b with
        | none => exact absurd rfl (hfill ha)
        | some sl =>
          cases sl with
          | scalar v => exact ⟨_, rfl⟩
          | coll vs => simp [slotOK] at hok
    obtain ⟨fv, hfv⟩ := hfv
    refine ⟨fv :: tgt, ?_, ?_⟩
    · simp [extractAll, hfv, htgt]
    · exact List.Forall₂.cons hfv hprop

/-- Helper: two pointwise relations over the same lists combine. -/
theorem forall2_conj {α β : Type} {P Q : α → β → Prop}
    {l1 : List α} {l2 : List β}
    (hp : List.Forall₂ P l1 l2) (hq : List.Forall₂ Q l1 l2) :
    List.Forall₂ (fun a b => P a b ∧ Q a b) l1 l2 := by
  induction hp with
  | nil => exact List.Forall₂.nil
  | cons h t ih =>
    cases hq with
    | cons h2 t2 => exact List.Forall₂.cons ⟨h, h2⟩ (ih t2)

/-- C6: `build` never fails because of an optional or repeated field — as
soon as every plain slot is filled it succeeds, placing each optional
field's slot value as-is and each repeated field's slot as the accumulated
collection (empty when the slot was never touched). -/
theorem build_never_fails_on_optional_repeated {V : Type}
    (descs : List FieldDesc) (st : BState V)
    (hwf : List.Forall₂ (fun d s => slotOK d.special s) descs st)
    (hfilled : List.Forall₂
      (fun d s => d.special = SpecialFieldTypes.unknown → s ≠ none) descs st) :
    ∃ tgt, build descs st = (BuildResult.ok tgt, st.map (fun _ => none))
      ∧ List.Forall₂ extractSpec (descs.zip st) tgt := by
  obtain ⟨tgt, htgt, hprop⟩ := extractAll_of_filled (forall2_conj hwf hfilled)
  refine ⟨tgt, ?_, ?_⟩
  · unfold build
    rw [firstUninit_none_of_filled hfilled, htgt]
  · refine hprop.imp ?_
    rintro ⟨d0, s0⟩ fv hext
    simp only at hext
    constructor
    · intro hopt
      rw [hopt] at hext
      constructor
      · rintro rfl
        simp only [extractField, Option.some.injEq] at hext
        exact hext.symm
      · intro v hv
        have hv2 : s0 = some (Slot.scalar v) := hv
        rw [hv2] at hext
        simp only [extractField, Option.some.injEq] at hext
        exact hext.symm
    · intro hvec
      rw [hvec] at hext
      constructor
      · rintro rfl
        simp only [extractField, Option.some.injEq] at hext
        exact hext.symm
      · intro vs hvs
        have hvs2 : s0 = some (Slot.coll vs) := hvs
        rw [hvs2] at hext
        simp only [extractField, Option.some.injEq] at hext
        exact hext.symm

/-- Witness for C6 on the fully populated `Command` builder: `build`
succeeds, `current_dir` (optional, never set) comes out absent and the two
repeated fields come out as their accumulated collections. -/
theorem build_never_fails_on_optional_repeated_witness :
    ∃ tgt, build commandDescs cmdStateFull =
        (BuildResult.ok tgt, cmdStateFull.map (fun _ => none))
      ∧ List.Forall₂ extractSpec (commandDescs.zip cmdStateFull) tgt := by
  refine build_never_fails_on_optional_repeated commandDescs cmdStateFull ?_ ?_
  · have h1 : cmdStateFull =
        [some (Slot.scalar "ls"), some (Slot.coll ["ls", "-l"]),
         some (Slot.coll ["PATH=/bin"]), none] := rfl
    rw [commandDescs_eq, h1]
    exact List.Forall₂.cons trivial (List.Forall₂.cons trivial
      (List.Forall₂.cons trivial (List.Forall₂.cons trivial List.Forall₂.nil)))
  · have h1 : cmdStateFull =
        [some (Slot.scalar "ls"), some (Slot.coll ["ls", "-l"]),
         some (Slot.coll ["PATH=/bin"]), none] := rfl
    rw [commandDescs_eq, h1]
    refine List.Forall₂.cons ?_ (List.Forall₂.cons ?_
      (List.Forall₂.cons ?_ (List.Forall₂.cons ?_ List.Forall₂.nil))) <;> simp

/-- Helper: reading back the slot just written. -/
theorem getD_set_self {α : Type} (l : List α) (i : Nat) (h : i < l.length)
    (x d : α) : (l.set i x).getD i d = x := by
  rw [List.getD_eq_getElem?_getD, List.getElem?_set_self]
  · rfl
  · simpa using h

/-- Helper for C7: name resolution in the generated `impl` block — when no
earlier field offers a method named `n` and field `i` offers one of kind
`k`, the call dispatches to field `i`. -/
theorem findMethod_at (descs : List FieldDesc) (n : String) (i : Nat)
    (hi : i < descs.length) (k : MethodKind)
    (hfound : (methodsFor (descs.get ⟨i, hi⟩)).find? (fun m => m.mname == n)
      = some ⟨n, k⟩)
    (hbefore : ∀ j (hj : j < descs.length), j < i →
      ∀ m ∈ methodsFor (descs.get ⟨j, hj⟩), m.mname ≠ n) :
    findMethod descs n = some (i, k) := by
  induction descs generalizing i with
  | nil => exact absurd hi (by simp)
  | cons d rest ih =>
    cases i with
    | zero =>
      simp only [List.get] at hfound
      simp [findMethod, hfound]
    | succ j =>
      have hd : ∀ m ∈ methodsFor d, m.mname ≠ n := by
        intro m hm
        exact hbefore 0 (by simp) (Nat.succ_pos j) m hm
      have hnone : (methodsFor d).find? (fun m => m.mname == n) = none := by
        rw [List.find?_eq_none]
        intro m hm hx
        exact hd m hm (by simpa using hx)
      have hrec := ih j (by simpa using hi) hfound
        (fun j2 hj2 hlt m hm =>
          hbefore (j2 + 1) (by simpa using hj2) (Nat.succ_lt_succ hlt) m hm)
      simp [findMethod, hnone, hrec]

/-- Helper for C7: a dispatched appender call rewrites exactly slot `i`
through `pushSlot`. -/
theorem callMethod_appender_slot {V : Type} (descs : List FieldDesc)
    (st : BState V) (n : String) (i : Nat) (v : V)
    (hfind : findMethod descs n = some (i, MethodKind.appender)) :
    callMethod descs st n (Slot.scalar v)
      = st.set i (pushSlot (st.getD i none) v) := by
  simp [callMethod, hfind]

/-- Helper for C7: iterating appender calls folds `pushSlot` over slot `i`
and preserves the state's length. -/
theorem foldl_appender_slot {V : Type} (descs : List FieldDesc)
    (n : String) (i : Nat)
    (hfind : findMethod descs n = some (i, MethodKind.appender)) :
    ∀ (vs : List V) (st : BState V), i < st.length →
      (vs.foldl (fun s v => callMethod descs s n (Slot.scalar v)) st).getD i none
        = vs.foldl pushSlot (st.getD i none)
      ∧ (vs.foldl (fun s v => callMethod descs s n (Slot.scalar v)) st).length
        = st.length
  | [], st, _ => ⟨rfl, rfl⟩
  | v :: vs, st, hi => by
    have hstep := callMethod_appender_slot descs st n i v hfind
    have hlen : (st.set i (pushSlot (st.getD i none) v)).length = st.length := by
      simp
    obtain ⟨h1, h2⟩ := foldl_appender_slot descs n i hfind vs
      (st.set i (pushSlot (st.getD i none) v)) (by rw [hlen]; exact hi)
    constructor
    · rw [List.foldl_cons, hstep, h1, getD_set_self st i hi, List.foldl_cons]
    · rw [List.foldl_cons, hstep, h2, hlen]

/-- Helper for C7: folding appender pushes over an already-started
collection appends in insertion order. -/
theorem foldl_pushSlot_coll {V : Type} : ∀ (vs l : List V),
    vs.foldl pushSlot (some (Slot.coll l)) = some (Slot.coll (l ++ vs))
  | [], l => by simp
  | v :: vs, l => by
    simp only [List.foldl_cons, pushSlot]
    rw [foldl_pushSlot_coll vs (l ++ [v])]
    simp

/-- Helper for C7: folding appender pushes from the empty slot yields the
pushed elements in insertion order (the empty fold leaves the slot empty,
which `build` reads as the empty collection). -/
theorem foldl_pushSlot_none {V : Type} : ∀ (vs : List V),
    extractField SpecialFieldTypes.vec (vs.foldl pushSlot none)
      = some (FieldVal.coll vs)
  | [] => rfl
  | v :: vs => by
    simp only [List.foldl_cons, pushSlot]
    rw [foldl_pushSlot_coll vs [v]]
    rfl

/-- Helper for C7: a dispatched whole-value setter call overwrites slot `i`
with its argument, discarding prior contents. -/
theorem callMethod_setter_slot {V : Type} (descs : List FieldDesc)
    (st : BState V) (n : String) (i : Nat) (arg : Slot V)
    (hfind : findMethod descs n = some (i, MethodKind.setter))
    (hi : i < st.length) :
    (callMethod descs st n arg).getD i none = some arg := by
  simp only [callMethod, hfind]
  exact getD_set_self st i hi (some arg) none

/-- Helper for C7: a fresh builder's slots are all empty. -/
theorem initBuilder_getD_none {V : Type} (descs : List FieldDesc) (i : Nat) :
    (initBuilder V descs).getD i none = none := by
  unfold initBuilder
  induction descs generalizing i with
  | nil => rfl
  | cons d ds ih =>
    cases i with
    | zero => rfl
    | succ j => exact ih j

/-- C7: for a repeated field `i` whose directive `e` differs from the field
name (and whose two method names are not claimed by any earlier field):
from a fresh builder, calling the appender once per element of `vs`
accumulates exactly the collection `vs` in insertion order
(auto-initializing on the first push), and a subsequent whole-collection
setter call replaces the accumulated contents with `ws` outright. -/
theorem appender_accumulates_setter_replaces {V : Type}
    (descs : List FieldDesc) (i : Nat) (hi : i < descs.length) (e : String)
    (heach : (descs.get ⟨i, hi⟩).each = some e)
    (hne : e ≠ (descs.get ⟨i, hi⟩).name)
    (hbefore : ∀ j (hj : j < descs.length), j < i →
      ∀ m ∈ methodsFor (descs.get ⟨j, hj⟩),
        m.mname ≠ e ∧ m.mname ≠ (descs.get ⟨i, hi⟩).name)
    (vs ws : List V) :
    extractField SpecialFieldTypes.vec
      ((vs.foldl (fun s v => callMethod descs s e (Slot.scalar v))
        (initBuilder V descs)).getD i none) = some (FieldVal.coll vs)
    ∧ (callMethod descs
        (vs.foldl (fun s v => callMethod descs s e (Slot.scalar v))
          (initBuilder V descs))
        (descs.get ⟨i, hi⟩).name (Slot.coll ws)).getD i none
      = some (Slot.coll ws) := by
  have heach2 : descs[i].each = some e := heach
  have hne2 : e ≠ descs[i].name := hne
  have hfinda : findMethod descs e = some (i, MethodKind.appender) := by
    apply findMethod_at descs e i hi
    · simp [methodsFor, heach2, hne2]
    · intro j hj hji m hm
      exact (hbefore j hj hji m hm).1
  have hfinds : findMethod descs (descs.get ⟨i, hi⟩).name
      = some (i, MethodKind.setter) := by
    apply findMethod_at descs (descs.get ⟨i, hi⟩).name i hi
    · simp [methodsFor, heach2, hne2]
    · intro j hj hji m hm
      exact (hbefore j hj hji m hm).2
  have hiinit : i < (initBuilder V descs).length := by simp [initBuilder, hi]
  obtain ⟨hslot, hlen⟩ := foldl_appender_slot descs e i hfinda vs
    (initBuilder V descs) hiinit
  rw [initBuilder_getD_none] at hslot
  constructor
  · rw [hslot]
    exact foldl_pushSlot_none vs
  · exact callMethod_setter_slot descs _ _ i (Slot.coll ws) hfinds
      (by rw [hlen]; exact hiinit)

/-- Witness for C7 on `Command`'s `args` field (directive `arg`, field name
`args`): pushing `"ls"` then `"-l"` accumulates `["ls","-l"]`, after which
`args(vec!["x"])` replaces the whole collection with `["x"]`. -/
theorem appender_accumulates_setter_replaces_witness :
    extractField SpecialFieldTypes.vec
      ((["ls", "-l"].foldl
        (fun s v => callMethod commandDescs s "arg" (Slot.scalar v))
        (initBuilder String commandDescs)).getD 1 none)
      = some (FieldVal.coll ["ls", "-l"])
    ∧ (callMethod commandDescs
        (["ls", "-l"].foldl
          (fun s v => callMethod commandDescs s "arg" (Slot.scalar v))
          (initBuilder String commandDescs))
        "args" (Slot.coll ["x"])).getD 1 none
      = some (Slot.coll ["x"]) :=
  appender_accumulates_setter_replaces commandDescs 1 (by decide) "arg"
    rfl (by decide) (by decide) ["ls", "-l"] ["x"]

end Builder
